import Mathlib

/-!
Verification development for a conversational NL-to-SQL assistant
(single-file Streamlit app over DuckDB).  The Python source is embedded
shallowly: its pure string helpers become Lean functions on `String` /
`List Char`, the Gemini completion call is modelled by its observable
outcome (an exception, or a parsed JSON from which the text field may or
may not be extractable), and the per-turn handler becomes a pure function
from an environment (completion outcomes plus the SQL engine, modelled as
a function from query text to a result or an error message) to a record
of everything the turn did.
-/

set_option maxRecDepth 10000

/-- The backtick character (used by the markdown-fence stripper). -/
def tick : Char := "`".front

/-- ASCII letter test, matching the regex character class [a-zA-Z]. -/
def isAsciiLetter (c : Char) : Bool :=
  ("a".front ≤ c && c ≤ "z".front) || ("A".front ≤ c && c ≤ "Z".front)

/-- Characters stripped from both ends by Python s.strip(" \n\r BACKTICK"):
space, linefeed, carriage return and backtick.  Note: tab is NOT in the set. -/
def stripChar (c : Char) : Bool :=
  c == ' ' || c == '\n' || c == '\r' || c == tick

/-- One pass of Python re.sub(r"BACKTICK*3[a-zA-Z]*", "", s), as a scanner.
The Bool state is true while consuming the [a-zA-Z]* part right after a
triple backtick.  At every position the scanner first tries to match a
triple backtick (starting a new deletion), matching re.sub's leftmost,
non-overlapping semantics. -/
def sub3Aux : Bool → List Char → List Char
  | _, [] => []
  | b, c1 :: c2 :: c3 :: rest =>
    if c1 = tick ∧ c2 = tick ∧ c3 = tick then sub3Aux true rest
    else if b ∧ isAsciiLetter c1 = true then sub3Aux true (c2 :: c3 :: rest)
    else c1 :: sub3Aux false (c2 :: c3 :: rest)
  | b, c1 :: rest =>
    if b ∧ isAsciiLetter c1 = true then sub3Aux true rest
    else c1 :: sub3Aux false rest

/-- re.sub(r"BACKTICK*3[a-zA-Z]*", "", s) on the character list. -/
def sub3 (l : List Char) : List Char := sub3Aux false l

/-- Fuelled scanner for Python str.replace(pat, repl): leftmost,
non-overlapping, all occurrences.  The fuel argument makes the recursion
structural; `replaceList` supplies fuel = length, which always suffices. -/
def replaceGo (pat repl : List Char) : Nat → List Char → List Char
  | _, [] => []
  | 0, s => s
  | fuel + 1, c :: t =>
    if pat.isPrefixOf (c :: t) then
      repl ++ replaceGo pat repl fuel (t.drop (pat.length - 1))
    else c :: replaceGo pat repl fuel t

/-- Python str.replace(pat, repl) on character lists (pat nonempty in all
uses in this program). -/
def replaceList (pat repl s : List Char) : List Char :=
  replaceGo pat repl s.length s

/-- Python s.replace(pat, repl) on strings. -/
def pyReplace (s pat repl : String) : String :=
  String.mk (replaceList pat.data repl.data s.data)

/-- Python l.dropWhile-style strip of leading strip-set characters. -/
def frontStrip (l : List Char) : List Char :=
  l.dropWhile (fun c => stripChar c)

/-- Python s.strip(" \n\r BACKTICK"): drop strip-set characters from both
ends. -/
def stripEnds (l : List Char) : List Char :=
  ((frontStrip l).reverse.dropWhile (fun c => stripChar c)).reverse

/-- clean_sql from app.py: on None return ""; otherwise apply
re.sub(r"BACKTICK*3[a-zA-Z]*", "", s), then s.replace("BACKTICK*3", ""),
then s.strip(" \n\r BACKTICK"). -/
def clean_sql : Option String → String
  | none => ""
  | some s =>
    String.mk (stripEnds (replaceList ("```".data) [] (sub3 s.data)))

/-- The category translation table from app.py (dict iteration order =
insertion order). -/
def category_map : List (String × String) :=
  [("electronics", "eletronicos"),
   ("furniture", "moveis_decoracao"),
   ("fashion", "fashion_bolsas_e_acessorios"),
   ("health_beauty", "beleza_saude"),
   ("toys", "brinquedos"),
   ("books", "livros_tecnicos")]

/-- A category word as it appears in query text: wrapped in single quotes
(the f-string f"'X'" of app.py). -/
def quoted (w : String) : String := "'" ++ w ++ "'"

/-- The loop `for eng, por in category_map.items(): sql = sql.replace(...)`:
each quoted English token is replaced by its quoted Portuguese token, in
table order. -/
def applyCategoryMap (q : String) : String :=
  category_map.foldl (fun acc ep => pyReplace acc (quoted ep.1) (quoted ep.2)) q

/-- The first n replacement steps of the category-translation loop. -/
def applyCatPre (n : Nat) (q : String) : String :=
  (category_map.take n).foldl (fun acc ep => pyReplace acc (quoted ep.1) (quoted ep.2)) q

/-- The self-overlap pattern for a quoted token w: two occurrences of
quoted w sharing one quote character.  When a query contains this pattern,
a single left-to-right replace of quoted w can leave (re-form) an
occurrence of quoted w at a replacement boundary. -/
def ovl (w : String) : String := "'" ++ w ++ "'" ++ w ++ "'"

/-- `sql_query.replace("CURRENT_DATE", f"DATE '{max_date.date()}'")` with
the dataset max date rendered as the string d. -/
def substDate (d q : String) : String :=
  pyReplace q "CURRENT_DATE" ("DATE '" ++ d ++ "'")

/-- Observable result of extracting res["candidates"][0]["content"]["parts"][0]["text"]
from a parsed JSON response: `extractText = some t` when every key/index is
present and yields the string t, `none` when any of them is missing (in the
Python code the extraction then raises inside the try block and is caught). -/
structure GeminiJson where
  extractText : Option String
deriving DecidableEq, Repr

/-- Outcome of one call to gemini_call.  `raises` models requests.post or
response.json() raising (network failure, non-JSON body): in app.py the call
`res = gemini_call(prompt)` sits OUTSIDE the try block of every caller, so
such an exception propagates.  `json r` models a successfully parsed JSON
value (any shape). -/
inductive GeminiOutcome where
  | raises : GeminiOutcome
  | json : GeminiJson → GeminiOutcome
deriving DecidableEq, Repr

/-- generate_sql from app.py: calls gemini_call (outside try), then inside
try extracts the text field and sanitizes it with clean_sql.  A missing
field is caught and yields None; an exception from gemini_call itself
propagates (modelled as Except.error). -/
def generate_sql (o : GeminiOutcome) : Except Unit (Option String) :=
  match o with
  | .raises => .error ()
  | .json r =>
    match r.extractText with
    | some t => .ok (some (clean_sql (some t)))
    | none => .ok none

/-- explain_results from app.py: extraction failure yields the fixed
fallback string; an exception from gemini_call propagates. -/
def explain_results (o : GeminiOutcome) : Except Unit String :=
  match o with
  | .raises => .error ()
  | .json r =>
    match r.extractText with
    | some t => .ok t
    | none => .ok "Could not generate summary."

/-- fix_sql from app.py: extracts, sanitizes with clean_sql, then replaces
CURRENT_DATE with the dataset max-date literal.  No category translation
is applied here.  Extraction failure yields None; an exception from
gemini_call propagates. -/
def fix_sql (d : String) (o : GeminiOutcome) : Except Unit (Option String) :=
  match o with
  | .raises => .error ()
  | .json r =>
    match r.extractText with
    | some t => .ok (some (substDate d (clean_sql (some t))))
    | none => .ok none

/-- A pandas result frame, abstracted to what the turn handler inspects:
its row count (`result.empty` iff rows = 0) and whether it has at least
one numeric column (the chart condition).  pd.DataFrame() is
`Df.mk 0 false`. -/
structure Df where
  rows : Nat
  hasNumeric : Bool
deriving DecidableEq, Repr

/-- One conversation turn as stored in st.session_state.history: the
question, and the summary once (and if) one is attached. -/
structure Turn where
  user : String
  summary : Option String
deriving DecidableEq, Repr

/-- Environment of one turn: the dataset max date string, the outcomes of
the (up to three) gemini_call invocations, and the DuckDB engine modelled
as a function from query text to a result frame or a raised error message. -/
structure TurnEnv where
  maxDate : String
  genOutcome : GeminiOutcome
  fixOutcome : GeminiOutcome
  sumOutcome : GeminiOutcome
  engine : String → Except String Df

/-- Everything observable that one press of the Run button does: the final
history, every query string passed to con.execute in order, the
original_sql argument passed to fix_sql (if the repair step ran), the
final `result` frame (none if the script crashed before it was bound),
whether a chart was rendered, whether a summary was produced, whether an
uncaught exception escaped, and the warning / error messages shown. -/
structure TurnResult where
  history : List Turn
  executed : List String
  fixInput : Option String
  result : Option Df
  charted : Bool
  summarized : Bool
  crashed : Bool
  warnings : List String
  errors : List String
deriving DecidableEq, Repr

/-- The result-display block of app.py (lines 156-173): on a nonempty frame
show the table, chart iff a numeric column exists, then summarize via
explain_results and attach the summary to the last history entry; on an
empty frame show the "No data returned" warning and skip chart and
summary.  A raising explain_results crashes the script before the
summary is attached. -/
def displayBlock (env : TurnEnv) (hist1 : List Turn) (q : String)
    (executed : List String) (fixInput : Option String) (df : Df)
    (warnings errors : List String) : TurnResult :=
  if 0 < df.rows then
    match explain_results env.sumOutcome with
    | .error _ =>
      { history := hist1, executed := executed, fixInput := fixInput,
        result := some df, charted := df.hasNumeric, summarized := false,
        crashed := true, warnings := warnings, errors := errors }
    | .ok summary =>
      { history := hist1.dropLast ++ [{ user := q, summary := some summary }],
        executed := executed, fixInput := fixInput,
        result := some df, charted := df.hasNumeric, summarized := true,
        crashed := false, warnings := warnings, errors := errors }
  else
    { history := hist1, executed := executed, fixInput := fixInput,
      result := some df, charted := false, summarized := false,
      crashed := false,
      warnings := warnings ++ ["No data returned for this query."],
      errors := errors }

/-- The turn handler of app.py (the `if run_btn and user_query:` block):
append the question to history, generate SQL, and if a (truthy) query came
back, apply the category translation, apply the date substitution, execute;
on an execution error call fix_sql once with the failed (post-substitution)
SQL and the error text, and execute the corrected SQL (if truthy) exactly
once; then run the display block on the resulting frame. -/
def runTurn (env : TurnEnv) (hist : List Turn) (q : String) : TurnResult :=
  let hist1 := hist ++ [{ user := q, summary := none }]
  match generate_sql env.genOutcome with
  | .error _ =>
    { history := hist1, executed := [], fixInput := none, result := none,
      charted := false, summarized := false, crashed := true,
      warnings := [], errors := [] }
  | .ok none =>
    { history := hist1, executed := [], fixInput := none, result := none,
      charted := false, summarized := false, crashed := false,
      warnings := ["Gemini could not generate SQL for that query."],
      errors := ["Gemini could not generate SQL."] }
  | .ok (some sql0) =>
    if sql0 = "" then
      { history := hist1, executed := [], fixInput := none, result := none,
        charted := false, summarized := false, crashed := false,
        warnings := ["Gemini could not generate SQL for that query."],
        errors := [] }
    else
      let sql2 := substDate env.maxDate (applyCategoryMap sql0)
      match env.engine sql2 with
      | .ok df => displayBlock env hist1 q [sql2] none df [] []
      | .error e =>
        match fix_sql env.maxDate env.fixOutcome with
        | .error _ =>
          { history := hist1, executed := [sql2], fixInput := some sql2,
            result := none, charted := false, summarized := false,
            crashed := true, warnings := ["SQL failed: " ++ e], errors := [] }
        | .ok none =>
          displayBlock env hist1 q [sql2] (some sql2)
            { rows := 0, hasNumeric := false } ["SQL failed: " ++ e] []
        | .ok (some f) =>
          if f = "" then
            displayBlock env hist1 q [sql2] (some sql2)
              { rows := 0, hasNumeric := false } ["SQL failed: " ++ e] []
          else
            match env.engine f with
            | .ok df2 =>
              displayBlock env hist1 q [sql2, f] (some sql2) df2
                ["SQL failed: " ++ e] []
            | .error e2 =>
              displayBlock env hist1 q [sql2, f] (some sql2)
                { rows := 0, hasNumeric := false } ["SQL failed: " ++ e]
                ["Still invalid after correction: " ++ e2]

/-- A concrete test environment: the completion calls parse and return
fixed SQL texts, and the engine rejects every query. -/
def envBoom : TurnEnv :=
  { maxDate := "2018-09-03",
    genOutcome := .json ⟨some "SELECT 1"⟩,
    fixOutcome := .json ⟨some "SELECT 2"⟩,
    sumOutcome := .json ⟨some "sum"⟩,
    engine := fun _ => .error "boom" }

/-- A concrete test environment: the engine accepts every query and
returns an empty frame. -/
def envNoRows : TurnEnv :=
  { maxDate := "2018-09-03",
    genOutcome := .json ⟨some "SELECT 1"⟩,
    fixOutcome := .json ⟨some "SELECT 2"⟩,
    sumOutcome := .json ⟨some "sum"⟩,
    engine := fun _ => .ok { rows := 0, hasNumeric := false } }

/-- A concrete test environment: the engine accepts every query and
returns a one-row frame with a numeric column. -/
def envOneRow : TurnEnv :=
  { maxDate := "2018-09-03",
    genOutcome := .json ⟨some "SELECT 1"⟩,
    fixOutcome := .json ⟨some "SELECT 2"⟩,
    sumOutcome := .json ⟨some "sum"⟩,
    engine := fun _ => .ok { rows := 1, hasNumeric := true } }

/-! ### General list lemmas: prefixes, suffixes and occurrences across appends -/

theorem pre_append_cases {α : Type} {l a b : List α} (h : l <+: a ++ b) :
    l <+: a ∨ ∃ v, l = a ++ v ∧ v <+: b := by
  induction a generalizing l with
  | nil => exact Or.inr ⟨l, rfl, h⟩
  | cons x a' ih =>
    rcases (List.prefix_cons_iff.1 h) with h0 | ⟨t, rfl, ht⟩
    · exact Or.inl (by simp [h0])
    · rcases ih ht with h1 | ⟨v, rfl, hv⟩
      · exact Or.inl (List.cons_prefix_cons.2 ⟨rfl, h1⟩)
      · exact Or.inr ⟨v, by simp, hv⟩

theorem pre_append_left {α : Type} {v t : List α} (a : List α) (h : v <+: t) :
    a ++ v <+: a ++ t := by
  rcases h with ⟨w, rfl⟩
  exact ⟨w, by simp⟩

theorem suffix_of_cons {α : Type} {d : α} {s p : List α} (h : d :: s <:+ p) :
    s <:+ p := by
  rcases h with ⟨a, rfl⟩
  exact ⟨a ++ [d], by simp⟩

theorem within_append_cases {α : Type} {l a b : List α} (h : l <:+: a ++ b) :
    l <:+: a ∨ l <:+: b ∨
      ∃ u v, l = u ++ v ∧ u ≠ [] ∧ v ≠ [] ∧ u <:+ a ∧ v <+: b := by
  induction a generalizing l with
  | nil => exact Or.inr (Or.inl (by simpa using h))
  | cons x a' ih =>
    rcases List.infix_cons_iff.1 h with hpre | hin
    · rcases pre_append_cases (l := l) (a := x :: a') (b := b) hpre with h1 | ⟨v, rfl, hv⟩
      · exact Or.inl h1.isInfix
      · rcases eq_or_ne v [] with rfl | hv0
        · exact Or.inl (by simp)
        · exact Or.inr (Or.inr ⟨x :: a', v, rfl, by simp, hv0, List.suffix_rfl, hv⟩)
    · rcases ih hin with h1 | h1 | ⟨u, v, rfl, hu, hv, hua, hvb⟩
      · exact Or.inl (List.infix_cons h1)
      · exact Or.inr (Or.inl h1)
      · exact Or.inr (Or.inr ⟨u, v, rfl, hu, hv, hua.trans (List.suffix_cons x a'), hvb⟩)

theorem head_eq_of_pre {α : Type} {l m : List α} (h : l <+: m) (hl : l ≠ []) :
    l.head? = m.head? := by
  cases l with
  | nil => exact absurd rfl hl
  | cons c t =>
    cases m with
    | nil => exact absurd (List.eq_nil_of_prefix_nil h) (by simp)
    | cons d u => rcases List.cons_prefix_cons.1 h with ⟨rfl, -⟩; rfl

/-! ### Basic behaviour of the str.replace embedding -/

theorem replaceGo_congr (pat repl : List Char) :
    ∀ n s f₁ f₂, s.length ≤ n → s.length ≤ f₁ → s.length ≤ f₂ →
      replaceGo pat repl f₁ s = replaceGo pat repl f₂ s := by
  intro n
  induction n with
  | zero =>
    intro s f₁ f₂ hn _ _
    have : s = [] := List.length_eq_zero.1 (Nat.le_zero.1 hn)
    subst this
    cases f₁ <;> cases f₂ <;> rfl
  | succ n ih =>
    intro s f₁ f₂ hn h₁ h₂
    cases s with
    | nil => cases f₁ <;> cases f₂ <;> rfl
    | cons c t =>
      have hl : (c :: t).length = t.length + 1 := rfl
      cases f₁ with
      | zero => omega
      | succ g₁ =>
        cases f₂ with
        | zero => omega
        | succ g₂ =>
          show (if pat.isPrefixOf (c :: t) then _ else _)
              = (if pat.isPrefixOf (c :: t) then _ else _)
          by_cases hp : pat.isPrefixOf (c :: t)
          · rw [if_pos hp, if_pos hp]
            have hd := List.length_drop (pat.length - 1) t
            rw [ih (t.drop (pat.length - 1)) g₁ g₂ (by omega) (by omega) (by omega)]
          · rw [if_neg hp, if_neg hp]
            rw [ih t g₁ g₂ (by omega) (by omega) (by omega)]

theorem replaceGo_fuel (pat repl : List Char) (f : Nat) (s : List Char)
    (h : s.length ≤ f) : replaceGo pat repl f s = replaceGo pat repl s.length s :=
  replaceGo_congr pat repl s.length s f s.length le_rfl h le_rfl

theorem replaceList_cons_pos {pat : List Char} (repl : List Char) {c : Char}
    {t : List Char} (h : pat <+: c :: t) :
    replaceList pat repl (c :: t) = repl ++ replaceList pat repl (t.drop (pat.length - 1)) := by
  have hb : pat.isPrefixOf (c :: t) := List.isPrefixOf_iff_prefix.2 h
  show replaceGo pat repl (c :: t).length (c :: t) = _
  rw [show (c :: t).length = t.length + 1 from rfl]
  show (if pat.isPrefixOf (c :: t) then _ else _) = _
  rw [if_pos hb, replaceList, replaceGo_fuel pat repl t.length _ (by
    have := List.length_drop (pat.length - 1) t
    omega)]

theorem replaceList_cons_neg {pat : List Char} (repl : List Char) {c : Char}
    {t : List Char} (h : ¬ pat <+: c :: t) :
    replaceList pat repl (c :: t) = c :: replaceList pat repl t := by
  have hb : ¬ pat.isPrefixOf (c :: t) = true := fun hb => h (List.isPrefixOf_iff_prefix.1 hb)
  show replaceGo pat repl (c :: t).length (c :: t) = _
  rw [show (c :: t).length = t.length + 1 from rfl]
  show (if pat.isPrefixOf (c :: t) then _ else _) = _
  rw [if_neg hb]
  rfl

theorem replaceList_at_pat {pat : List Char} (repl : List Char) (t : List Char)
    (hp : pat ≠ []) :
    replaceList pat repl (pat ++ t) = repl ++ replaceList pat repl t := by
  cases pat with
  | nil => exact absurd rfl hp
  | cons pc pt =>
    have h : pc :: pt <+: pc :: (pt ++ t) := List.cons_prefix_cons.2 ⟨rfl, ⟨t, rfl⟩⟩
    rw [show (pc :: pt) ++ t = pc :: (pt ++ t) from rfl, replaceList_cons_pos repl h]
    congr 2
    show (pt ++ t).drop ((pc :: pt).length - 1) = t
    rw [show (pc :: pt).length - 1 = pt.length by simp]
    exact List.drop_left pt t

theorem replaceList_id {pat repl : List Char} :
    ∀ s, ¬ pat <:+: s → replaceList pat repl s = s := by
  intro s
  induction s with
  | nil => intro _; rfl
  | cons c t ih =>
    intro h
    have hnp : ¬ pat <+: c :: t := fun hp => h hp.isInfix
    rw [replaceList_cons_neg repl hnp, ih fun hi => h (List.infix_cons hi)]

theorem repl_within {pat repl : List Char} (hp : pat ≠ []) :
    ∀ s, pat <:+: s → repl <:+: replaceList pat repl s := by
  intro s
  induction s with
  | nil =>
    intro h
    exact absurd (List.eq_nil_of_infix_nil h) hp
  | cons c t ih =>
    intro h
    by_cases hpre : pat <+: c :: t
    · rcases hpre with ⟨u, hu⟩
      rw [← hu, replaceList_at_pat repl u hp]
      exact (List.prefix_append repl _).isInfix
    · rcases List.infix_cons_iff.1 h with h1 | h1
      · exact absurd h1 hpre
      · rw [replaceList_cons_neg repl hpre]
        exact List.infix_cons (ih h1)

/-! ### Occurrence analysis of the replace scanner.

`replace_scan`: a suffix of the pattern that appears as a prefix of the
scanner's output either was already a prefix of the input, or ends with the
unique "bridge" (the only nonempty pattern-suffix that is a prefix of the
replacement), in which case the input started with the pre-bridge part
followed by a replaced occurrence of the pattern. -/

theorem replace_scan_aux {pat repl bB : List Char}
    (hB : ∀ x, x <:+ pat → x ≠ [] → x <+: repl → x = bB)
    (h4 : ¬ repl <:+: pat) :
    ∀ n t s, t.length ≤ n → s <:+ pat → s <+: replaceList pat repl t →
      s <+: t ∨ ∃ s₁ t', s = s₁ ++ bB ∧ t = s₁ ++ pat ++ t' := by
  intro n
  induction n with
  | zero =>
    intro t s ht _ hpre
    have : t = [] := List.length_eq_zero.1 (Nat.le_zero.1 ht)
    subst this
    exact Or.inl hpre
  | succ n ih =>
    intro t s ht hs hpre
    rcases eq_or_ne s [] with rfl | hsne
    · exact Or.inl (List.nil_prefix)
    have hpat_ne : pat ≠ [] := by
      intro h
      rw [h] at hs
      exact hsne (List.eq_nil_of_suffix_nil hs)
    cases t with
    | nil => exact Or.inl hpre
    | cons c t₂ =>
      by_cases hp : pat <+: c :: t₂
      · rcases hp with ⟨t₃, ht₃⟩
        rw [← ht₃] at hpre ⊢
        rw [replaceList_at_pat repl t₃ hpat_ne] at hpre
        rcases pre_append_cases hpre with h1 | ⟨v, hv, -⟩
        · right
          exact ⟨[], t₃, by simpa using hB s hs hsne h1, by simp⟩
        · exfalso
          have : repl <+: s := ⟨v, hv.symm⟩
          exact h4 (this.isInfix.trans hs.isInfix)
      · rw [replaceList_cons_neg repl hp] at hpre
        cases s with
        | nil => exact absurd rfl hsne
        | cons d s' =>
          rcases List.cons_prefix_cons.1 hpre with ⟨rfl, hs'⟩
          have hs'p : s' <:+ pat := suffix_of_cons hs
          have ht₂ : t₂.length ≤ n := by
            have : (d :: t₂).length = t₂.length + 1 := rfl
            omega
          rcases ih t₂ s' ht₂ hs'p hs' with h1 | ⟨s₁, t', he, ht'⟩
          · exact Or.inl (List.cons_prefix_cons.2 ⟨rfl, h1⟩)
          · exact Or.inr ⟨d :: s₁, t', by simp [he], by simp [ht']⟩

theorem replace_scan {pat repl bB : List Char}
    (hB : ∀ x, x <:+ pat → x ≠ [] → x <+: repl → x = bB)
    (h4 : ¬ repl <:+: pat)
    (t s : List Char) (hs : s <:+ pat) (hpre : s <+: replaceList pat repl t) :
    s <+: t ∨ ∃ s₁ t', s = s₁ ++ bB ∧ t = s₁ ++ pat ++ t' :=
  replace_scan_aux hB h4 t.length t s le_rfl hs hpre

/-- No new occurrence of the pattern after a full left-to-right replace,
provided the input avoids the forced overlap pattern ov.  Side conditions
pin down, for this (pat, repl) pair, the unique nonempty pattern-suffix
that prefixes the replacement (bB) and the unique nonempty
replacement-suffix that prefixes the pattern (uO, if any). -/
theorem replace_no_new_aux {pat repl bB : List Char} {uO : Option (List Char)}
    {ov : List Char}
    (hp2 : 2 ≤ pat.length)
    (h1 : ¬ pat <:+: repl)
    (h4 : ¬ repl <:+: pat)
    (hB : ∀ x, x <:+ pat → x ≠ [] → x <+: repl → x = bB)
    (hU : ∀ u, u <:+ repl → u ≠ [] → u <+: pat → ∃ u0, uO = some u0 ∧ u = u0)
    (hsplit : pat.take (pat.length - bB.length) ++ bB = pat)
    (hOv : ov = pat.take (pat.length - bB.length) ++ pat)
    (hQ : ∀ u0, uO = some u0 → ov = pat ++ pat.drop u0.length)
    (hBpre : ∀ u0, uO = some u0 → bB <+: pat) :
    ∀ n t, t.length ≤ n → ¬ ov <:+: t → ¬ pat <:+: replaceList pat repl t := by
  intro n
  induction n with
  | zero =>
    intro t ht _ hcon
    have : t = [] := List.length_eq_zero.1 (Nat.le_zero.1 ht)
    subst this
    have : pat = [] := List.eq_nil_of_infix_nil hcon
    rw [this] at hp2
    simp at hp2
  | succ n ih =>
    intro t ht hov hcon
    cases t with
    | nil =>
      have : pat = [] := List.eq_nil_of_infix_nil hcon
      rw [this] at hp2
      simp at hp2
    | cons c t₂ =>
      by_cases hp : pat <+: c :: t₂
      · rcases hp with ⟨t₃, ht₃⟩
        rw [← ht₃] at hcon hov ht
        rw [replaceList_at_pat repl t₃ (by intro h; rw [h] at hp2; simp at hp2)] at hcon
        rcases within_append_cases hcon with hi | hi | ⟨u, v, huv, hu0, hv0, hur, hvp⟩
        · exact h1 hi
        · have ht₃n : t₃.length ≤ n := by
            have := List.length_append pat t₃
            omega
          refine ih t₃ ht₃n (fun hx => hov (hx.trans ?_)) hi
          exact (List.suffix_append pat t₃).isInfix
        · have hupat : u <+: pat := ⟨v, huv.symm⟩
          rcases hU u hur hu0 hupat with ⟨u0, huO, rfl⟩
          have hvdrop : pat.drop u.length = v := by
            rw [huv]; exact List.drop_left u v
          have hov_eq : ov = pat ++ v := by rw [hQ u huO, hvdrop]
          have hvsuf : v <:+ pat := ⟨u, huv.symm⟩
          rcases replace_scan hB h4 t₃ v hvsuf hvp with h2 | ⟨s₁, t', hvb, ht'⟩
          · refine hov ?_
            rw [hov_eq]
            exact (pre_append_left pat h2).isInfix
          · refine hov ?_
            have hb : bB <+: pat := hBpre u huO
            have : ov <+: pat ++ s₁ ++ pat := by
              rw [hov_eq, hvb, ← List.append_assoc]
              exact pre_append_left (pat ++ s₁) hb
            rcases this with ⟨w, hw⟩
            refine List.IsPrefix.isInfix ⟨w ++ t', ?_⟩
            calc ov ++ (w ++ t') = (ov ++ w) ++ t' := by rw [List.append_assoc]
              _ = (pat ++ s₁ ++ pat) ++ t' := by rw [hw]
              _ = pat ++ t₃ := by rw [ht']; simp
      · rw [replaceList_cons_neg repl hp] at hcon
        rcases List.infix_cons_iff.1 hcon with hpre | hin
        · obtain ⟨pc, pt, hpc⟩ : ∃ pc pt, pat = pc :: pt := by
            cases pat with
            | nil => simp at hp2
            | cons a b => exact ⟨a, b, rfl⟩
          rw [hpc] at hpre
          rcases List.cons_prefix_cons.1 hpre with ⟨rfl, hptp⟩
          rw [← hpc] at hptp
          have hpt_suf : pt <:+ pat := by rw [hpc]; exact ⟨[pc], rfl⟩
          rcases replace_scan hB h4 t₂ pt hpt_suf hptp with h2 | ⟨s₁, t', hptb, ht'⟩
          · exact hp (by rw [hpc]; exact List.cons_prefix_cons.2 ⟨rfl, h2⟩)
          · refine hov ?_
            have htake : pat.take (pat.length - bB.length) = pc :: s₁ := by
              have h5 : (pc :: s₁) ++ bB = pat := by
                rw [hpc, hptb]; rfl
              exact List.append_cancel_right (hsplit.trans h5.symm)
            have : ov <+: pc :: t₂ := by
              rw [hOv, htake, ht']
              exact ⟨t', by simp⟩
            exact this.isInfix
        · have ht₂n : t₂.length ≤ n := by
            have : (c :: t₂).length = t₂.length + 1 := rfl
            omega
          exact ih t₂ ht₂n (fun hx => hov (List.infix_cons hx)) hin

theorem replace_no_new {pat repl bB : List Char} {uO : Option (List Char)}
    {ov : List Char}
    (hp2 : 2 ≤ pat.length)
    (h1 : ¬ pat <:+: repl)
    (h4 : ¬ repl <:+: pat)
    (hB : ∀ x, x <:+ pat → x ≠ [] → x <+: repl → x = bB)
    (hU : ∀ u, u <:+ repl → u ≠ [] → u <+: pat → ∃ u0, uO = some u0 ∧ u = u0)
    (hsplit : pat.take (pat.length - bB.length) ++ bB = pat)
    (hOv : ov = pat.take (pat.length - bB.length) ++ pat)
    (hQ : ∀ u0, uO = some u0 → ov = pat ++ pat.drop u0.length)
    (hBpre : ∀ u0, uO = some u0 → bB <+: pat)
    (t : List Char) (hov : ¬ ov <:+: t) : ¬ pat <:+: replaceList pat repl t :=
  replace_no_new_aux hp2 h1 h4 hB hU hsplit hOv hQ hBpre t.length t le_rfl hov

/-! ### The date substitution: instance facts -/

theorem date_repl_no_C {d : String} (hC : ('C' : Char) ∉ d.data) :
    ('C' : Char) ∉ ("DATE '" ++ d ++ "'").data := by
  intro h
  rw [String.data_append, String.data_append] at h
  rcases List.mem_append.1 h with h1 | h1
  · rcases List.mem_append.1 h1 with h2 | h2
    · exact absurd h2 (by decide)
    · exact hC h2
  · exact absurd h1 (by decide)

theorem subst_date_no_new {d : String} (hC : ('C' : Char) ∉ d.data)
    (q : List Char) (hov : ¬ "CURRENT_CURRENT_DATE".data <:+: q) :
    ¬ "CURRENT_DATE".data <:+:
        replaceList "CURRENT_DATE".data ("DATE '" ++ d ++ "'").data q := by
  have hreplC := date_repl_no_C hC
  have hpre6 : "DATE '".data <+: ("DATE '" ++ d ++ "'").data := by
    have : ("DATE '" ++ d ++ "'") = "DATE '" ++ (d ++ "'") := by
      rw [String.append_assoc]
    rw [this, String.data_append]
    exact List.prefix_append _ _
  have h1 : ¬ "CURRENT_DATE".data <:+: ("DATE '" ++ d ++ "'").data := by
    intro h
    exact hreplC (h.sublist.mem (by decide))
  have h4 : ¬ ("DATE '" ++ d ++ "'").data <:+: "CURRENT_DATE".data := by
    intro h
    have : "DATE '".data <:+: "CURRENT_DATE".data :=
      (hpre6.isInfix).trans h
    exact absurd this (by decide)
  have hB : ∀ x, x <:+ "CURRENT_DATE".data → x ≠ [] →
      x <+: ("DATE '" ++ d ++ "'").data → x = "DATE".data := by
    intro x hsuf hne hx
    have hx' := hx
    have : ("DATE '" ++ d ++ "'") = "DATE '" ++ (d ++ "'") := by
      rw [String.append_assoc]
    rw [this, String.data_append] at hx'
    rcases pre_append_cases hx' with h2 | ⟨v, hv, -⟩
    · have hmem := (List.mem_tails x "CURRENT_DATE".data).2 hsuf
      have hdec : ∀ y ∈ ("CURRENT_DATE".data).tails, y ≠ [] →
          y.isPrefixOf ("DATE '".data) → y = "DATE".data := by decide
      exact hdec x hmem hne (List.isPrefixOf_iff_prefix.2 h2)
    · exfalso
      have hp6 : "DATE '".data <+: x := ⟨v, hv.symm⟩
      have : "DATE '".data <:+: "CURRENT_DATE".data :=
        hp6.isInfix.trans hsuf.isInfix
      exact absurd this (by decide)
  have hU : ∀ u, u <:+ ("DATE '" ++ d ++ "'").data → u ≠ [] →
      u <+: "CURRENT_DATE".data →
      ∃ u0, (none : Option (List Char)) = some u0 ∧ u = u0 := by
    intro u husuf hune hupre
    exfalso
    cases u with
    | nil => exact hune rfl
    | cons a u' =>
      have ha : a = 'C' := by
        have := List.cons_prefix_cons.1 hupre
        exact this.1
      subst ha
      exact hreplC (husuf.sublist.mem (by simp))
  exact @replace_no_new "CURRENT_DATE".data ("DATE '" ++ d ++ "'").data
    "DATE".data none "CURRENT_CURRENT_DATE".data
    (by decide) h1 h4 hB hU (by decide) (by decide)
    (fun u0 h => by simp at h) (fun u0 h => by simp at h) q hov

/-! ### The category substitution: per-pair step facts -/

theorem quote_pre_quoted (w : String) : "'".data <+: (quoted w).data := by
  have : quoted w = "'" ++ (w ++ "'") := by
    rw [quoted, String.append_assoc]
  rw [this, String.data_append]
  exact List.prefix_append _ _

theorem cat_step_no_new {e p : String}
    (h1 : ¬ (quoted e).data <:+: (quoted p).data)
    (h4 : ¬ (quoted p).data <:+: (quoted e).data)
    (hBd : ∀ x ∈ (quoted e).data.tails, x ≠ [] →
      x.isPrefixOf ((quoted p).data) → x = "'".data)
    (hUd : ∀ u ∈ (quoted p).data.tails, u ≠ [] →
      u.isPrefixOf ((quoted e).data) → u = "'".data)
    (hsplit : (quoted e).data.take ((quoted e).data.length - 1) ++ "'".data
        = (quoted e).data)
    (hOv : (ovl e).data
        = (quoted e).data.take ((quoted e).data.length - 1) ++ (quoted e).data)
    (hQ : (ovl e).data = (quoted e).data ++ (quoted e).data.drop 1)
    (hp2 : 2 ≤ (quoted e).data.length)
    (t : List Char) (hov : ¬ (ovl e).data <:+: t) :
    ¬ (quoted e).data <:+: replaceList (quoted e).data (quoted p).data t := by
  have hB : ∀ x, x <:+ (quoted e).data → x ≠ [] →
      x <+: (quoted p).data → x = "'".data := by
    intro x hsuf hne hx
    exact hBd x ((List.mem_tails x _).2 hsuf) hne (List.isPrefixOf_iff_prefix.2 hx)
  have hU : ∀ u, u <:+ (quoted p).data → u ≠ [] → u <+: (quoted e).data →
      ∃ u0, (some ("'".data) : Option (List Char)) = some u0 ∧ u = u0 := by
    intro u hsuf hne hu
    exact ⟨"'".data, rfl,
      hUd u ((List.mem_tails u _).2 hsuf) hne (List.isPrefixOf_iff_prefix.2 hu)⟩
  refine @replace_no_new (quoted e).data (quoted p).data "'".data
    (some ("'".data)) (ovl e).data hp2 h1 h4 hB hU hsplit hOv ?_ ?_ t hov
  · intro u0 h
    have : u0 = "'".data := by
      injection h with h'
      exact h'.symm
    subst this
    simpa using hQ
  · intro u0 _
    exact quote_pre_quoted e

/-! ### The sanitizer: fence removal leaves no triple backtick, and
stripping is idempotent -/

theorem sub3Aux_emit (c1 : Char) (tail : List Char)
    (h : ¬ [tick, tick, tick] <+: c1 :: tail) :
    sub3Aux false (c1 :: tail) = c1 :: sub3Aux false tail := by
  match tail with
  | [] =>
    show (if (false : Bool) ∧ isAsciiLetter c1 = true then _ else c1 :: sub3Aux false []) = _
    rw [if_neg (by simp)]
  | [c2] =>
    show (if (false : Bool) ∧ isAsciiLetter c1 = true then _ else c1 :: sub3Aux false [c2]) = _
    rw [if_neg (by simp)]
  | c2 :: c3 :: rest =>
    show (if c1 = tick ∧ c2 = tick ∧ c3 = tick then _ else
      if (false : Bool) ∧ isAsciiLetter c1 = true then _
      else c1 :: sub3Aux false (c2 :: c3 :: rest)) = _
    rw [if_neg, if_neg (by simp)]
    rintro ⟨rfl, rfl, rfl⟩
    exact h (List.cons_prefix_cons.2 ⟨rfl, List.cons_prefix_cons.2
      ⟨rfl, List.cons_prefix_cons.2 ⟨rfl, List.nil_prefix⟩⟩⟩)

theorem sub3Aux_head (t : List Char)
    (h : (sub3Aux false t).head? = some tick) : t.head? = some tick := by
  match t with
  | [] => exact absurd h (by simp [sub3Aux])
  | c1 :: tail =>
    by_cases hp : [tick, tick, tick] <+: c1 :: tail
    · rcases hp with ⟨u, hu⟩
      rw [← hu]
      rfl
    · rw [sub3Aux_emit c1 tail hp] at h
      simp only [List.head?] at h ⊢
      exact h

theorem sub3Aux_two_ticks (t : List Char)
    (h : [tick, tick] <+: sub3Aux false t) : [tick, tick] <+: t := by
  match t with
  | [] =>
    have : sub3Aux false ([] : List Char) = [] := rfl
    rw [this] at h
    exact absurd (List.eq_nil_of_prefix_nil h) (by simp)
  | c1 :: tail =>
    by_cases hp : [tick, tick, tick] <+: c1 :: tail
    · rcases hp with ⟨u, hu⟩
      rw [← hu]
      exact List.cons_prefix_cons.2 ⟨rfl, List.cons_prefix_cons.2 ⟨rfl, List.nil_prefix⟩⟩
    · rw [sub3Aux_emit c1 tail hp] at h
      rcases List.cons_prefix_cons.1 h with ⟨rfl, h2⟩
      have htail : tail.head? = some tick := by
        cases hs : sub3Aux false tail with
        | nil => rw [hs] at h2; exact absurd (List.eq_nil_of_prefix_nil h2) (by simp)
        | cons d u =>
          rw [hs] at h2
          rcases List.cons_prefix_cons.1 h2 with ⟨rfl, -⟩
          exact sub3Aux_head tail (by rw [hs]; rfl)
      cases tail with
      | nil => exact absurd htail (by simp)
      | cons c2 tail2 =>
        have : c2 = tick := by simpa using htail
        subst this
        exact List.cons_prefix_cons.2 ⟨rfl, List.cons_prefix_cons.2 ⟨rfl, List.nil_prefix⟩⟩

theorem sub3Aux_three (b : Bool) (c1 c2 c3 : Char) (rest : List Char) :
    sub3Aux b (c1 :: c2 :: c3 :: rest) =
      if c1 = tick ∧ c2 = tick ∧ c3 = tick then sub3Aux true rest
      else if b ∧ isAsciiLetter c1 = true then sub3Aux true (c2 :: c3 :: rest)
      else c1 :: sub3Aux false (c2 :: c3 :: rest) := rfl

theorem sub3Aux_short1 (b : Bool) (c1 : Char) :
    sub3Aux b [c1] =
      if b ∧ isAsciiLetter c1 = true then sub3Aux true []
      else c1 :: sub3Aux false [] := rfl

theorem sub3Aux_short2 (b : Bool) (c1 c2 : Char) :
    sub3Aux b [c1, c2] =
      if b ∧ isAsciiLetter c1 = true then sub3Aux true [c2]
      else c1 :: sub3Aux false [c2] := rfl

theorem sub3Aux_len : ∀ n t (b : Bool), t.length ≤ n →
    (sub3Aux b t).length ≤ t.length := by
  intro n
  induction n with
  | zero =>
    intro t b ht
    have : t = [] := List.length_eq_zero.1 (Nat.le_zero.1 ht)
    subst this
    simp [sub3Aux]
  | succ n ih =>
    intro t b ht
    match t with
    | [] => simp [sub3Aux]
    | [c1] =>
      rw [sub3Aux_short1]
      split
      · simp [sub3Aux]
      · simp [sub3Aux]
    | [c1, c2] =>
      rw [sub3Aux_short2]
      have h1 : ([c2] : List Char).length ≤ n := by simp at ht ⊢; omega
      split
      · have := ih [c2] true h1
        simp at this ⊢
        omega
      · have := ih [c2] false h1
        simp at this ⊢
        omega
    | c1 :: c2 :: c3 :: rest =>
      rw [sub3Aux_three]
      have hlen : (c1 :: c2 :: c3 :: rest).length = rest.length + 3 := by simp
      split
      · have := ih rest true (by omega)
        simp at this ⊢
        omega
      · split
        · have := ih (c2 :: c3 :: rest) true (by simp at ht ⊢; omega)
          simp at this ⊢
          omega
        · have := ih (c2 :: c3 :: rest) false (by simp at ht ⊢; omega)
          simp at this ⊢
          omega

theorem sub3Aux_no_triple : ∀ n (b : Bool) t, t.length ≤ n →
    ¬ [tick, tick, tick] <:+: sub3Aux b t := by
  intro n
  induction n with
  | zero =>
    intro b t ht hcon
    have : t = [] := List.length_eq_zero.1 (Nat.le_zero.1 ht)
    subst this
    have : sub3Aux b ([] : List Char) = [] := rfl
    rw [this] at hcon
    have := hcon.length_le
    simp at this
  | succ n ih =>
    intro b t ht hcon
    match t with
    | [] =>
      have : sub3Aux b ([] : List Char) = [] := rfl
      rw [this] at hcon
      have := hcon.length_le
      simp at this
    | [c1] =>
      have := hcon.length_le
      have h2 := sub3Aux_len (n + 1) [c1] b ht
      simp at this h2
      omega
    | [c1, c2] =>
      have := hcon.length_le
      have h2 := sub3Aux_len (n + 1) [c1, c2] b ht
      simp at this h2
      omega
    | c1 :: c2 :: c3 :: rest =>
      rw [sub3Aux_three] at hcon
      have hlen : (c1 :: c2 :: c3 :: rest).length = rest.length + 3 := by simp
      rcases Decidable.em (c1 = tick ∧ c2 = tick ∧ c3 = tick) with htr | htr
      · rw [if_pos htr] at hcon
        exact ih true rest (by omega) hcon
      · rw [if_neg htr] at hcon
        rcases Decidable.em (b ∧ isAsciiLetter c1 = true) with hsk | hsk
        · rw [if_pos hsk] at hcon
          exact ih true (c2 :: c3 :: rest) (by simp at ht ⊢; omega) hcon
        · rw [if_neg hsk] at hcon
          rcases List.infix_cons_iff.1 hcon with hpre | hin
          · rcases List.cons_prefix_cons.1 hpre with ⟨hc1, h2⟩
            have h3 := sub3Aux_two_ticks (c2 :: c3 :: rest) h2
            rcases List.cons_prefix_cons.1 h3 with ⟨hc2, h4⟩
            have hc3 : c3 = tick := by
              cases rest with
              | nil =>
                rcases List.cons_prefix_cons.1 h4 with ⟨h5, -⟩
                exact h5.symm
              | cons d u =>
                rcases List.cons_prefix_cons.1 h4 with ⟨h5, -⟩
                exact h5.symm
            exact htr ⟨hc1.symm, hc2.symm, hc3⟩
          · exact ih false (c2 :: c3 :: rest) (by simp at ht ⊢; omega) hin

theorem sub3_no_triple (t : List Char) : ¬ "```".data <:+: sub3 t := by
  have h : "```".data = [tick, tick, tick] := by decide
  rw [h]
  exact sub3Aux_no_triple t.length false t le_rfl

theorem sub3_id (t : List Char) (h : ¬ "```".data <:+: t) :
    sub3Aux false t = t := by
  have h3 : "```".data = [tick, tick, tick] := by decide
  rw [h3] at h
  clear h3
  induction t with
  | nil => rfl
  | cons c1 tail ih =>
    have hp : ¬ [tick, tick, tick] <+: c1 :: tail :=
      fun hp => h hp.isInfix
    rw [sub3Aux_emit c1 tail hp, ih fun hi => h (List.infix_cons hi)]

theorem head_dropWhile_all (p : Char → Bool) :
    ∀ l : List Char, ((l.dropWhile p).head?.all (fun c => !p c)) = true := by
  intro l
  induction l with
  | nil => rfl
  | cons c t ih =>
    by_cases hc : p c = true
    · rw [List.dropWhile_cons_of_pos hc]
      exact ih
    · rw [List.dropWhile_cons_of_neg hc]
      simp [Option.all]
      simpa using hc

theorem dropWhile_of_head_all {p : Char → Bool} {l : List Char}
    (h : (l.head?.all (fun c => !p c)) = true) : l.dropWhile p = l := by
  cases l with
  | nil => rfl
  | cons c t =>
    have hc : ¬ p c = true := by
      simp [Option.all] at h
      simp [h]
    exact List.dropWhile_cons_of_neg hc

theorem stripEnds_pre_frontStrip (l : List Char) :
    stripEnds l <+: frontStrip l := by
  rw [stripEnds]
  have h1 : ((frontStrip l).reverse.dropWhile (fun c => stripChar c))
      <:+ (frontStrip l).reverse := List.dropWhile_suffix _
  apply List.reverse_suffix.1
  rw [List.reverse_reverse]
  exact h1

theorem stripEnds_head (l : List Char) :
    ((stripEnds l).head?.all (fun c => !stripChar c)) = true := by
  cases hR : stripEnds l with
  | nil => rfl
  | cons c t =>
    have hpre : stripEnds l <+: frontStrip l := stripEnds_pre_frontStrip l
    rw [hR] at hpre
    have hhead := head_eq_of_pre hpre (by simp)
    have hfs := head_dropWhile_all (fun c => stripChar c) l
    rw [frontStrip] at hhead
    rw [← hhead] at hfs
    simpa using hfs

theorem stripEnds_last (l : List Char) :
    ((stripEnds l).getLast?.all (fun c => !stripChar c)) = true := by
  rw [stripEnds, List.getLast?_reverse]
  exact head_dropWhile_all _ _

theorem stripEnds_idem (l : List Char) : stripEnds (stripEnds l) = stripEnds l := by
  have hfront : frontStrip (stripEnds l) = stripEnds l := by
    rw [frontStrip]
    exact dropWhile_of_head_all (stripEnds_head l)
  rw [stripEnds, hfront]
  rw [show stripEnds l =
    ((frontStrip l).reverse.dropWhile (fun c => stripChar c)).reverse from rfl]
  rw [List.reverse_reverse, List.dropWhile_idempotent]

theorem stripEnds_within (l : List Char) : stripEnds l <:+: l :=
  List.infix_iff_prefix_suffix.2
    ⟨frontStrip l, stripEnds_pre_frontStrip l, List.dropWhile_suffix _⟩

/-! ### Behaviour of the display block -/

theorem displayBlock_executed (env : TurnEnv) (hist1 : List Turn) (q : String)
    (ex : List String) (fi : Option String) (df : Df) (w er : List String) :
    (displayBlock env hist1 q ex fi df w er).executed = ex := by
  unfold displayBlock
  split
  · split <;> rfl
  · rfl

theorem displayBlock_fixInput (env : TurnEnv) (hist1 : List Turn) (q : String)
    (ex : List String) (fi : Option String) (df : Df) (w er : List String) :
    (displayBlock env hist1 q ex fi df w er).fixInput = fi := by
  unfold displayBlock
  split
  · split <;> rfl
  · rfl

theorem displayBlock_result (env : TurnEnv) (hist1 : List Turn) (q : String)
    (ex : List String) (fi : Option String) (df : Df) (w er : List String) :
    (displayBlock env hist1 q ex fi df w er).result = some df := by
  unfold displayBlock
  split
  · split <;> rfl
  · rfl

theorem displayBlock_zero (env : TurnEnv) (hist1 : List Turn) (q : String)
    (ex : List String) (fi : Option String) (df : Df) (w er : List String)
    (h : df.rows = 0) :
    displayBlock env hist1 q ex fi df w er =
      { history := hist1, executed := ex, fixInput := fi, result := some df,
        charted := false, summarized := false, crashed := false,
        warnings := w ++ ["No data returned for this query."], errors := er } := by
  unfold displayBlock
  rw [if_neg]
  omega

theorem displayBlock_hist (env : TurnEnv) (hist : List Turn) (q : String)
    (ex : List String) (fi : Option String) (df : Df) (w er : List String) :
    ∃ s : Option String,
      (displayBlock env (hist ++ [{ user := q, summary := none }]) q ex fi df w er).history
        = hist ++ [{ user := q, summary := s }] ∧
      (s.isSome = true ↔
        (displayBlock env (hist ++ [{ user := q, summary := none }]) q ex fi df w er).summarized
          = true) ∧
      ((displayBlock env (hist ++ [{ user := q, summary := none }]) q ex fi df w er).summarized
          = true →
        (displayBlock env (hist ++ [{ user := q, summary := none }]) q ex fi df w er).result
            = some df ∧ 0 < df.rows ∧
        (displayBlock env (hist ++ [{ user := q, summary := none }]) q ex fi df w er).crashed
            = false) := by
  unfold displayBlock
  split
  · rename_i hrows
    cases explain_results env.sumOutcome with
    | error u => exact ⟨none, rfl, by simp, by simp⟩
    | ok summary =>
      refine ⟨some summary, ?_, by simp, fun _ => ⟨rfl, hrows, rfl⟩⟩
      simp [List.dropLast_concat]
  · exact ⟨none, rfl, by simp, by simp⟩

/-! ### Small list facts used by the turn-level theorems -/

theorem append_singleton_one {α : Type} {qs : List α} {a x : α}
    (h : qs ++ [a] = [x]) : qs = [] ∧ a = x := by
  cases qs with
  | nil => simpa using h
  | cons z w =>
    have := congrArg List.length h
    simp at this

theorem append_singleton_two {α : Type} {qs : List α} {a x y : α}
    (h : qs ++ [a] = [x, y]) : qs = [x] ∧ a = y := by
  cases qs with
  | nil => simp at h
  | cons z w =>
    cases w with
    | nil =>
      simp at h
      exact ⟨by simp [h.1], h.2⟩
    | cons z2 w2 =>
      have := congrArg List.length h
      simp at this

/-! ### Claim theorems -/

/-- C4: the SQL sanitizer clean_sql is idempotent: for every input,
cleaning the cleaned output returns it unchanged (in particular sanitizing
already-clean SQL is a no-op). -/
theorem clean_sql_idem (s : Option String) :
    clean_sql (some (clean_sql s)) = clean_sql s := by
  cases s with
  | none => rfl
  | some s =>
    have hA : ¬ "```".data <:+: sub3 s.data := sub3_no_triple s.data
    have h1 : replaceList "```".data [] (sub3 s.data) = sub3 s.data :=
      replaceList_id _ hA
    have hclean : clean_sql (some s) = String.mk (stripEnds (sub3 s.data)) := by
      show String.mk (stripEnds (replaceList "```".data [] (sub3 s.data))) = _
      rw [h1]
    rw [hclean]
    have hR : ¬ "```".data <:+: stripEnds (sub3 s.data) :=
      fun h => hA (h.trans (stripEnds_within _))
    show String.mk (stripEnds (replaceList "```".data []
      (sub3 (stripEnds (sub3 s.data))))) = _
    rw [show sub3 (stripEnds (sub3 s.data))
      = sub3Aux false (stripEnds (sub3 s.data)) from rfl]
    rw [sub3_id _ hR, replaceList_id _ hR, stripEnds_idem]

/-- C5 counterexample: clean_sql does not strip every whitespace character
from the ends; a leading or trailing tab (a whitespace character) is kept,
because the Python code strips only space, newline, carriage return and
backtick. -/
theorem clean_sql_whitespace_counterexample :
    clean_sql (some "\tSELECT 1\t") = "\tSELECT 1\t" ∧
    Char.isWhitespace '\t' = true := ⟨by decide, by decide⟩

/-- C5 amended: clean_sql removes triple-backtick code fences (with
optional language tag), strips space, newline, carriage return and
backtick (but not tab or other whitespace) from both ends, maps the fence
example to "SELECT 1", and maps absent (None) input to "". -/
theorem clean_sql_strip_spec :
    clean_sql none = "" ∧
    clean_sql (some "```sql\nSELECT 1\n```") = "SELECT 1" ∧
    ∀ s : String,
      ((clean_sql (some s)).data.head?.all (fun c => !stripChar c)) = true ∧
      ((clean_sql (some s)).data.getLast?.all (fun c => !stripChar c)) = true := by
  refine ⟨rfl, by decide, fun s => ⟨?_, ?_⟩⟩
  · exact stripEnds_head _
  · exact stripEnds_last _

/-- C2 counterexample: when the completion call itself raises (network
failure or non-JSON body), the exception escapes generate_sql, fix_sql
and explain_results, because gemini_call is invoked outside their try
blocks; the callers do not return a value. -/
theorem completion_raise_counterexample :
    (generate_sql GeminiOutcome.raises).isOk = false ∧
    (fix_sql "2018-09-03" GeminiOutcome.raises).isOk = false ∧
    (explain_results GeminiOutcome.raises).isOk = false ∧
    generate_sql GeminiOutcome.raises = Except.error () :=
  ⟨rfl, rfl, rfl, rfl⟩

/-- C2 amended: once the completion response has been parsed to JSON, every
shape is handled without an exception reaching the caller: a missing
candidates/content/parts/text field makes generate_sql and fix_sql return
None and explain_results return the fixed fallback string; but an
exception raised by the HTTP call or JSON decoding itself propagates (see
the counterexample). -/
theorem completion_parsed_no_raise (d : String) (r : GeminiJson) :
    (generate_sql (.json r)).isOk = true ∧
    (fix_sql d (.json r)).isOk = true ∧
    (explain_results (.json r)).isOk = true ∧
    (r.extractText = none →
      generate_sql (.json r) = .ok none ∧
      fix_sql d (.json r) = .ok none ∧
      explain_results (.json r) = .ok "Could not generate summary.") := by
  cases r with
  | mk oText =>
    cases oText with
    | none => exact ⟨rfl, rfl, rfl, fun _ => ⟨rfl, rfl, rfl⟩⟩
    | some t =>
      refine ⟨rfl, rfl, rfl, fun h => ?_⟩
      simp at h

/-- Witness for the amended C2 theorem at the concrete
missing-fields response. -/
theorem completion_parsed_no_raise_witness :
    (GeminiJson.mk none).extractText = none ∧
    (generate_sql (.json (GeminiJson.mk none)) = .ok none ∧
      fix_sql "2018-09-03" (.json (GeminiJson.mk none)) = .ok none ∧
      explain_results (.json (GeminiJson.mk none))
        = .ok "Could not generate summary.") :=
  ⟨rfl, (completion_parsed_no_raise "2018-09-03" (GeminiJson.mk none)).2.2.2 rfl⟩

/-- C6 counterexample: the single-pass textual replace can re-form the
placeholder token across a replacement boundary.  For the generated query
SELECT CURRENT_CURRENT_DATE, the executed initial query still contains
CURRENT_DATE after the date substitution. -/
theorem date_subst_counterexample :
    (runTurn { maxDate := "2018-09-03",
               genOutcome := .json ⟨some "SELECT CURRENT_CURRENT_DATE"⟩,
               fixOutcome := .json ⟨none⟩,
               sumOutcome := .json ⟨some "sum"⟩,
               engine := fun _ => .ok { rows := 1, hasNumeric := true } }
        [] "q").executed = ["SELECT CURRENT_DATE '2018-09-03'"] ∧
    "CURRENT_DATE".data <:+: ("SELECT CURRENT_DATE '2018-09-03'").data :=
  ⟨by decide, by decide⟩

/-- C6 amended: the date substitution replaces the placeholder left to
right, so the substituted query contains the max-date literal wherever the
placeholder occurred; and no occurrence of CURRENT_DATE remains provided
the query does not contain the overlapped pattern CURRENT_CURRENT_DATE
(in which case the replacement's leading "DATE" re-forms the token, see
the counterexample).  The date string is assumed not to contain the
letter C, as a rendered date yyyy-mm-dd never does. -/
theorem date_subst_amended (d q : String)
    (hC : ('C' : Char) ∉ d.data)
    (hov : ¬ "CURRENT_CURRENT_DATE".data <:+: q.data) :
    ("CURRENT_DATE".data <:+: q.data →
      ("DATE '" ++ d ++ "'").data <:+: (substDate d q).data) ∧
    ¬ "CURRENT_DATE".data <:+: (substDate d q).data := by
  constructor
  · intro h
    exact repl_within (by decide) q.data h
  · exact subst_date_no_new hC q.data hov

/-- Witness for the amended C6 theorem at a concrete query using the
placeholder once. -/
theorem date_subst_amended_witness :
    ('C' : Char) ∉ ("2018-09-03").data ∧
    ¬ "CURRENT_CURRENT_DATE".data <:+:
      ("SELECT * FROM olist WHERE d >= CURRENT_DATE").data ∧
    (("CURRENT_DATE".data <:+:
        ("SELECT * FROM olist WHERE d >= CURRENT_DATE").data →
      ("DATE '" ++ "2018-09-03" ++ "'").data <:+:
        (substDate "2018-09-03" "SELECT * FROM olist WHERE d >= CURRENT_DATE").data) ∧
    ¬ "CURRENT_DATE".data <:+:
        (substDate "2018-09-03" "SELECT * FROM olist WHERE d >= CURRENT_DATE").data) :=
  ⟨by decide, by decide,
    date_subst_amended "2018-09-03" "SELECT * FROM olist WHERE d >= CURRENT_DATE"
      (by decide) (by decide)⟩

theorem quoted_data_ne (w : String) : (quoted w).data ≠ [] := by
  intro h
  have h1 := quote_pre_quoted w
  rw [h] at h1
  have := List.eq_nil_of_prefix_nil h1
  simp at this

theorem applyCatPre_succ (i : Nat) (e p : String)
    (hi : category_map.get? i = some (e, p)) (q : String) :
    applyCatPre (i + 1) q = pyReplace (applyCatPre i q) (quoted e) (quoted p) := by
  match i with
  | 0 =>
    have hpair : ("electronics", "eletronicos") = (e, p) := Option.some.inj hi
    have he : e = "electronics" := (congrArg Prod.fst hpair).symm
    have hp : p = "eletronicos" := (congrArg Prod.snd hpair).symm
    subst he; subst hp
    rfl
  | 1 =>
    have hpair : ("furniture", "moveis_decoracao") = (e, p) := Option.some.inj hi
    have he : e = "furniture" := (congrArg Prod.fst hpair).symm
    have hp : p = "moveis_decoracao" := (congrArg Prod.snd hpair).symm
    subst he; subst hp
    rfl
  | 2 =>
    have hpair : ("fashion", "fashion_bolsas_e_acessorios") = (e, p) :=
      Option.some.inj hi
    have he : e = "fashion" := (congrArg Prod.fst hpair).symm
    have hp : p = "fashion_bolsas_e_acessorios" := (congrArg Prod.snd hpair).symm
    subst he; subst hp
    rfl
  | 3 =>
    have hpair : ("health_beauty", "beleza_saude") = (e, p) := Option.some.inj hi
    have he : e = "health_beauty" := (congrArg Prod.fst hpair).symm
    have hp : p = "beleza_saude" := (congrArg Prod.snd hpair).symm
    subst he; subst hp
    rfl
  | 4 =>
    have hpair : ("toys", "brinquedos") = (e, p) := Option.some.inj hi
    have he : e = "toys" := (congrArg Prod.fst hpair).symm
    have hp : p = "brinquedos" := (congrArg Prod.snd hpair).symm
    subst he; subst hp
    rfl
  | 5 =>
    have hpair : ("books", "livros_tecnicos") = (e, p) := Option.some.inj hi
    have he : e = "books" := (congrArg Prod.fst hpair).symm
    have hp : p = "livros_tecnicos" := (congrArg Prod.snd hpair).symm
    subst he; subst hp
    rfl
  | n + 6 =>
    exfalso
    have : category_map.get? (n + 6) = none := by
      apply List.get?_eq_none.2
      simp [category_map]
    rw [this] at hi
    exact absurd hi (by simp)

/-- C7 counterexample: the category replace can re-form a quoted English
token at a replacement boundary.  A query containing the overlapped text
QUOTE electronics QUOTE electronics QUOTE still contains 'electronics'
after the whole translation loop. -/
theorem category_subst_counterexample :
    applyCategoryMap "SELECT 'electronics'electronics'"
      = "SELECT 'eletronicos'electronics'" ∧
    (quoted "electronics").data <:+:
      (applyCategoryMap "SELECT 'electronics'electronics'").data :=
  ⟨by decide, by decide⟩

/-- C7 amended: for each pair (e, p) of the translation table, the i-th
replace step substitutes occurrences of the quoted token 'e' left to
right: if the query entering that step contains 'e' (quoted) then the
query leaving it contains 'p' (quoted); and no occurrence of quoted 'e'
survives that step provided the entering query does not contain the
self-overlap pattern 'e'e' (in which case a boundary quote of the
replacement re-forms the token, see the counterexample; a later step's
replacement boundary can likewise re-form a token). -/
theorem category_subst_amended (q : String) (i : Nat) (e p : String)
    (hi : category_map.get? i = some (e, p))
    (hov : ¬ (ovl e).data <:+: (applyCatPre i q).data) :
    ((quoted e).data <:+: (applyCatPre i q).data →
      (quoted p).data <:+: (applyCatPre (i + 1) q).data) ∧
    ¬ (quoted e).data <:+: (applyCatPre (i + 1) q).data := by
  have hstep := applyCatPre_succ i e p hi q
  have hdata : (applyCatPre (i + 1) q).data
      = replaceList (quoted e).data (quoted p).data (applyCatPre i q).data := by
    rw [hstep]; rfl
  constructor
  · intro h
    rw [hdata]
    exact repl_within (quoted_data_ne e) _ h
  · rw [hdata]
    have hi6 : i < 6 := by
      by_contra hge
      push_neg at hge
      have hnone : category_map.get? i = none := by
        apply List.get?_eq_none.2
        simpa [category_map] using hge
      rw [hnone] at hi
      exact absurd hi (by simp)
    interval_cases i <;>
      [ (have hpair : ("electronics", "eletronicos") = (e, p) := Option.some.inj hi);
        (have hpair : ("furniture", "moveis_decoracao") = (e, p) := Option.some.inj hi);
        (have hpair : ("fashion", "fashion_bolsas_e_acessorios") = (e, p) :=
          Option.some.inj hi);
        (have hpair : ("health_beauty", "beleza_saude") = (e, p) := Option.some.inj hi);
        (have hpair : ("toys", "brinquedos") = (e, p) := Option.some.inj hi);
        (have hpair : ("books", "livros_tecnicos") = (e, p) := Option.some.inj hi)] <;>
      (have he : e = _ := (congrArg Prod.fst hpair).symm) <;>
      (have hp : p = _ := (congrArg Prod.snd hpair).symm) <;>
      subst he <;> subst hp <;>
      exact cat_step_no_new (by decide) (by decide) (by decide) (by decide)
        (by decide) (by decide) (by decide) (by decide) _ hov

/-- C7 amended witness at the first table pair and a concrete query. -/
theorem category_subst_amended_witness :
    category_map.get? 0 = some ("electronics", "eletronicos") ∧
    ¬ (ovl "electronics").data <:+:
      (applyCatPre 0 "SELECT * FROM olist WHERE c = 'electronics'").data ∧
    (((quoted "electronics").data <:+:
        (applyCatPre 0 "SELECT * FROM olist WHERE c = 'electronics'").data →
      (quoted "eletronicos").data <:+:
        (applyCatPre 1 "SELECT * FROM olist WHERE c = 'electronics'").data) ∧
    ¬ (quoted "electronics").data <:+:
        (applyCatPre 1 "SELECT * FROM olist WHERE c = 'electronics'").data) :=
  ⟨rfl, by decide,
    category_subst_amended "SELECT * FROM olist WHERE c = 'electronics'" 0
      "electronics" "eletronicos" rfl (by decide)⟩

theorem displayBlock_empty_df (env : TurnEnv) (hist1 : List Turn) (q : String)
    (ex : List String) (fi : Option String) (w er : List String) :
    displayBlock env hist1 q ex fi { rows := 0, hasNumeric := false } w er =
      { history := hist1, executed := ex, fixInput := fi,
        result := some { rows := 0, hasNumeric := false },
        charted := false, summarized := false, crashed := false,
        warnings := w ++ ["No data returned for this query."], errors := er } :=
  displayBlock_zero env hist1 q ex fi { rows := 0, hasNumeric := false } w er rfl

/-- C1: per turn the engine executes at most twice (the initial attempt and
at most one repaired attempt), and when the second (repaired) execution
fails the turn ends with the empty frame, no chart and no summary; no
further retry exists in the control flow. -/
theorem turn_repair_bound (env : TurnEnv) (hist : List Turn) (q : String) :
    (runTurn env hist q).executed.length ≤ 2 ∧
    (∀ q1 q2 e, (runTurn env hist q).executed = [q1, q2] →
      env.engine q2 = .error e →
      (runTurn env hist q).result = some { rows := 0, hasNumeric := false } ∧
      (runTurn env hist q).summarized = false ∧
      (runTurn env hist q).charted = false) := by
  constructor
  · unfold runTurn
    cases env.genOutcome with
    | raises => simp [generate_sql]
    | json r =>
      cases hr : r.extractText with
      | none => simp [generate_sql, hr]
      | some t =>
        simp only [generate_sql, hr]
        split
        · simp
        · cases hE : env.engine (substDate env.maxDate (applyCategoryMap (clean_sql (some t)))) with
          | ok df => simp [hE, displayBlock_executed]
          | error e =>
            simp only [hE]
            cases env.fixOutcome with
            | raises => simp [fix_sql]
            | json rf =>
              cases hrf : rf.extractText with
              | none => simp [fix_sql, hrf, displayBlock_executed]
              | some tf =>
                simp only [fix_sql, hrf]
                split
                · simp [displayBlock_executed]
                · cases hE2 : env.engine (substDate env.maxDate (clean_sql (some tf))) with
                  | ok df2 => simp [hE2, displayBlock_executed]
                  | error e2 => simp [hE2, displayBlock_executed]
  · intro q1 q2 e hex hfail
    unfold runTurn at hex ⊢
    cases hgen : env.genOutcome with
    | raises => simp [generate_sql, hgen] at hex
    | json r =>
      cases hr : r.extractText with
      | none => simp [generate_sql, hgen, hr] at hex
      | some t =>
        simp only [generate_sql, hgen, hr] at hex ⊢
        rcases hif : (decide (clean_sql (some t) = "")) with hif0 | hif1
        · rw [if_neg (of_decide_eq_false hif)] at hex ⊢
          cases hE : env.engine (substDate env.maxDate (applyCategoryMap (clean_sql (some t)))) with
          | ok df =>
            rw [hE] at hex
            rw [displayBlock_executed] at hex
            have := congrArg List.length hex
            simp at this
          | error e1 =>
            rw [hE] at hex
            cases hfx : env.fixOutcome with
            | raises => simp [fix_sql, hfx] at hex
            | json rf =>
              cases hrf : rf.extractText with
              | none =>
                simp only [fix_sql, hfx, hrf] at hex
                rw [displayBlock_executed] at hex
                have := congrArg List.length hex
                simp at this
              | some tf =>
                simp only [fix_sql, hfx, hrf] at hex ⊢
                rcases hif2 : (decide (substDate env.maxDate (clean_sql (some tf)) = ""))
                    with h2f | h2t
                · rw [if_neg (of_decide_eq_false hif2)] at hex ⊢
                  cases hE2 : env.engine (substDate env.maxDate (clean_sql (some tf))) with
                  | ok df2 =>
                    rw [hE2] at hex
                    rw [displayBlock_executed] at hex
                    have h12 : substDate env.maxDate (clean_sql (some tf)) = q2 := by
                      simp at hex
                      exact hex.2
                    rw [h12] at hE2
                    rw [hE2] at hfail
                    exact absurd hfail (by simp)
                  | error e2 =>
                    rw [hE2] at hex
                    refine ⟨?_, ?_, ?_⟩ <;> simp [displayBlock_empty_df]
                · rw [if_pos (of_decide_eq_true hif2)] at hex
                  rw [displayBlock_executed] at hex
                  have := congrArg List.length hex
                  simp at this
        · rw [if_pos (of_decide_eq_true hif)] at hex
          simp at hex

/-- C1 witness: a concrete turn whose two executions both fail. -/
theorem turn_repair_bound_witness :
    (runTurn envBoom [] "hi").executed.length ≤ 2 ∧
    (runTurn envBoom [] "hi").result = some { rows := 0, hasNumeric := false } :=
  ⟨(turn_repair_bound envBoom [] "hi").1,
    ((turn_repair_bound envBoom [] "hi").2 "SELECT 1" "SELECT 2" "boom"
      (by decide) rfl).1⟩

/-- C3: the repaired SQL is executed after the date-placeholder
substitution (done inside fix_sql) but without the category translation,
while the initial query is executed after both substitutions; the third
conjunct exhibits the asymmetry on a query where the two pipelines
disagree. -/
theorem repair_subst_asymmetry :
    (∀ env hist q rawF q2, env.fixOutcome = .json ⟨some rawF⟩ →
      (runTurn env hist q).executed.get? 1 = some q2 →
      q2 = substDate env.maxDate (clean_sql (some rawF))) ∧
    (∀ env hist q rawG q1, env.genOutcome = .json ⟨some rawG⟩ →
      (runTurn env hist q).executed.get? 0 = some q1 →
      q1 = substDate env.maxDate (applyCategoryMap (clean_sql (some rawG)))) ∧
    (∃ s : String, substDate "2018-09-03" (clean_sql (some s)) ≠
      substDate "2018-09-03" (applyCategoryMap (clean_sql (some s)))) := by
  refine ⟨?_, ?_, ⟨"SELECT 'electronics'", by decide⟩⟩
  · intro env hist q rawF q2 hF hget
    unfold runTurn at hget
    cases hgen : env.genOutcome with
    | raises => simp [generate_sql, hgen] at hget
    | json r =>
      cases hr : r.extractText with
      | none => simp [generate_sql, hgen, hr] at hget
      | some t =>
        simp only [generate_sql, hgen, hr] at hget
        by_cases h0 : clean_sql (some t) = ""
        · rw [if_pos h0] at hget
          simp at hget
        · rw [if_neg h0] at hget
          cases hE : env.engine (substDate env.maxDate
              (applyCategoryMap (clean_sql (some t)))) with
          | ok df =>
            simp only [hE] at hget
            rw [displayBlock_executed] at hget
            simp at hget
          | error e1 =>
            simp only [hE, hF, fix_sql] at hget
            by_cases h2 : substDate env.maxDate (clean_sql (some rawF)) = ""
            · rw [if_pos h2] at hget
              rw [displayBlock_executed] at hget
              simp at hget
            · rw [if_neg h2] at hget
              cases hE2 : env.engine (substDate env.maxDate (clean_sql (some rawF))) with
              | ok df2 =>
                simp only [hE2] at hget
                rw [displayBlock_executed] at hget
                simp at hget
                exact hget.symm
              | error e2 =>
                simp only [hE2] at hget
                rw [displayBlock_executed] at hget
                simp at hget
                exact hget.symm
  · intro env hist q rawG q1 hG hget
    unfold runTurn at hget
    simp only [hG, generate_sql] at hget
    by_cases h0 : clean_sql (some rawG) = ""
    · rw [if_pos h0] at hget
      simp at hget
    · rw [if_neg h0] at hget
      cases hE : env.engine (substDate env.maxDate
          (applyCategoryMap (clean_sql (some rawG)))) with
      | ok df =>
        simp only [hE] at hget
        rw [displayBlock_executed] at hget
        simp at hget
        exact hget.symm
      | error e1 =>
        simp only [hE] at hget
        cases hfx : env.fixOutcome with
        | raises =>
          simp only [hfx, fix_sql] at hget
          simp at hget
          exact hget.symm
        | json rf =>
          cases hrf : rf.extractText with
          | none =>
            simp only [hfx, fix_sql, hrf] at hget
            rw [displayBlock_executed] at hget
            simp at hget
            exact hget.symm
          | some tf =>
            simp only [hfx, fix_sql, hrf] at hget
            by_cases h2 : substDate env.maxDate (clean_sql (some tf)) = ""
            · rw [if_pos h2] at hget
              rw [displayBlock_executed] at hget
              simp at hget
              exact hget.symm
            · rw [if_neg h2] at hget
              cases hE2 : env.engine (substDate env.maxDate (clean_sql (some tf))) with
              | ok df2 =>
                simp only [hE2] at hget
                rw [displayBlock_executed] at hget
                simp at hget
                exact hget.symm
              | error e2 =>
                simp only [hE2] at hget
                rw [displayBlock_executed] at hget
                simp at hget
                exact hget.symm

/-- C3 witness: the concrete two-execution turn of the C1 witness, checked
against the fix model output. -/
theorem repair_subst_asymmetry_witness :
    (runTurn envBoom [] "hi").executed.get? 1 = some "SELECT 2" ∧
    "SELECT 2" = substDate "2018-09-03" (clean_sql (some "SELECT 2")) :=
  ⟨by decide,
    repair_subst_asymmetry.1 envBoom [] "hi" "SELECT 2" "SELECT 2" rfl (by decide)⟩

/-- C10: whenever the repair step runs, the original SQL handed to fix_sql
is the post-substitution query (category translation and date substitution
already applied), not the raw sanitized model output; consequently the
repair step's own date substitution only changes anything if the corrected
SQL reintroduces the CURRENT_DATE token, since the substitution is the
identity on token-free strings (second conjunct). -/
theorem fix_input_post_subst :
    (∀ env hist q s, (runTurn env hist q).fixInput = some s →
      ∃ rawG, env.genOutcome = .json ⟨some rawG⟩ ∧
        s = substDate env.maxDate (applyCategoryMap (clean_sql (some rawG)))) ∧
    (∀ d t, ¬ ("CURRENT_DATE".data <:+: t.data) → substDate d t = t) := by
  constructor
  · intro env hist q s hfi
    unfold runTurn at hfi
    cases hgen : env.genOutcome with
    | raises => simp [generate_sql, hgen] at hfi
    | json r =>
      cases hr : r.extractText with
      | none => simp [generate_sql, hgen, hr] at hfi
      | some t =>
        have hrq : GeminiOutcome.json r = GeminiOutcome.json ⟨some t⟩ := by
          cases r
          simp at hr
          rw [hr]
        refine ⟨t, hrq, ?_⟩
        simp only [generate_sql, hgen, hr] at hfi
        by_cases h0 : clean_sql (some t) = ""
        · rw [if_pos h0] at hfi
          simp at hfi
        · rw [if_neg h0] at hfi
          cases hE : env.engine (substDate env.maxDate
              (applyCategoryMap (clean_sql (some t)))) with
          | ok df =>
            simp only [hE] at hfi
            rw [displayBlock_fixInput] at hfi
            simp at hfi
          | error e1 =>
            simp only [hE] at hfi
            cases hfx : env.fixOutcome with
            | raises =>
              simp only [hfx, fix_sql] at hfi
              simp at hfi
              exact hfi.symm
            | json rf =>
              cases hrf : rf.extractText with
              | none =>
                simp only [hfx, fix_sql, hrf] at hfi
                rw [displayBlock_fixInput] at hfi
                simp at hfi
                exact hfi.symm
              | some tf =>
                simp only [hfx, fix_sql, hrf] at hfi
                by_cases h2 : substDate env.maxDate (clean_sql (some tf)) = ""
                · rw [if_pos h2] at hfi
                  rw [displayBlock_fixInput] at hfi
                  simp at hfi
                  exact hfi.symm
                · rw [if_neg h2] at hfi
                  cases hE2 : env.engine (substDate env.maxDate (clean_sql (some tf))) with
                  | ok df2 =>
                    simp only [hE2] at hfi
                    rw [displayBlock_fixInput] at hfi
                    simp at hfi
                    exact hfi.symm
                  | error e2 =>
                    simp only [hE2] at hfi
                    rw [displayBlock_fixInput] at hfi
                    simp at hfi
                    exact hfi.symm
  · intro d t h
    show String.mk (replaceList "CURRENT_DATE".data ("DATE '" ++ d ++ "'").data t.data) = t
    rw [replaceList_id t.data h]

/-- C10 witness: the repair input of the concrete failing turn, and the
identity of the date substitution on a token-free corrected query. -/
theorem fix_input_post_subst_witness :
    (runTurn envBoom [] "hi").fixInput = some "SELECT 1" ∧
    (∃ rawG, envBoom.genOutcome = .json ⟨some rawG⟩ ∧
      "SELECT 1" = substDate "2018-09-03" (applyCategoryMap (clean_sql (some rawG)))) ∧
    (¬ ("CURRENT_DATE".data <:+: ("SELECT 2").data) ∧
      substDate "2018-09-03" "SELECT 2" = "SELECT 2") :=
  ⟨by decide,
    fix_input_post_subst.1 envBoom [] "hi" "SELECT 1" (by decide),
    by decide, fix_input_post_subst.2 "2018-09-03" "SELECT 2" (by decide)⟩

/-- C8: when the last executed query succeeds with a zero-row frame, the
turn renders no chart, produces no summary, raises no exception, shows
the "No data returned" warning (a non-error message), and shows no error
message. -/
theorem empty_result_skips (env : TurnEnv) (hist : List Turn) (q : String)
    (qs : List String) (sql : String) (b : Bool)
    (hex : (runTurn env hist q).executed = qs ++ [sql])
    (hok : env.engine sql = .ok { rows := 0, hasNumeric := b }) :
    (runTurn env hist q).charted = false ∧
    (runTurn env hist q).summarized = false ∧
    (runTurn env hist q).crashed = false ∧
    "No data returned for this query." ∈ (runTurn env hist q).warnings ∧
    (runTurn env hist q).errors = [] := by
  unfold runTurn at hex ⊢
  cases hgen : env.genOutcome with
  | raises => simp [generate_sql, hgen] at hex
  | json r =>
    cases hr : r.extractText with
    | none => simp [generate_sql, hgen, hr] at hex
    | some t =>
      simp only [generate_sql, hgen, hr] at hex ⊢
      by_cases h0 : clean_sql (some t) = ""
      · rw [if_pos h0] at hex
        simp at hex
      · rw [if_neg h0] at hex ⊢
        cases hE : env.engine (substDate env.maxDate
            (applyCategoryMap (clean_sql (some t)))) with
        | ok df =>
          simp only [hE] at hex
          rw [displayBlock_executed] at hex
          obtain ⟨-, rfl⟩ := append_singleton_one hex.symm
          rw [hE] at hok
          have hdf : df = { rows := 0, hasNumeric := b } := by injection hok
          subst hdf
          refine ⟨?_, ?_, ?_, ?_, ?_⟩ <;>
            simp [displayBlock_zero _ _ _ _ _ _ _ _ (show Df.rows ⟨0, b⟩ = 0 from rfl)]
        | error e1 =>
          simp only [hE] at hex ⊢
          cases hfx : env.fixOutcome with
          | raises =>
            simp only [hfx, fix_sql] at hex
            obtain ⟨-, rfl⟩ := append_singleton_one hex.symm
            rw [hE] at hok
            exact absurd hok (by simp)
          | json rf =>
            cases hrf : rf.extractText with
            | none =>
              simp only [hfx, fix_sql, hrf] at hex
              rw [displayBlock_executed] at hex
              obtain ⟨-, rfl⟩ := append_singleton_one hex.symm
              rw [hE] at hok
              exact absurd hok (by simp)
            | some tf =>
              simp only [hfx, fix_sql, hrf] at hex ⊢
              by_cases h2 : substDate env.maxDate (clean_sql (some tf)) = ""
              · rw [if_pos h2] at hex ⊢
                rw [displayBlock_executed] at hex
                obtain ⟨-, rfl⟩ := append_singleton_one hex.symm
                rw [hE] at hok
                exact absurd hok (by simp)
              · rw [if_neg h2] at hex ⊢
                cases hE2 : env.engine (substDate env.maxDate (clean_sql (some tf))) with
                | ok df2 =>
                  simp only [hE2] at hex
                  rw [displayBlock_executed] at hex
                  obtain ⟨-, rfl⟩ := append_singleton_two hex.symm
                  rw [hE2] at hok
                  have hdf : df2 = { rows := 0, hasNumeric := b } := by
                    injection hok
                  subst hdf
                  refine ⟨?_, ?_, ?_, ?_, ?_⟩ <;>
                    simp [displayBlock_zero _ _ _ _ _ _ _ _
                      (show Df.rows ⟨0, b⟩ = 0 from rfl)]
                | error e2 =>
                  simp only [hE2] at hex
                  rw [displayBlock_executed] at hex
                  obtain ⟨-, rfl⟩ := append_singleton_two hex.symm
                  rw [hE2] at hok
                  exact absurd hok (by simp)

/-- C8 witness: a concrete turn whose single execution returns zero rows. -/
theorem empty_result_skips_witness :
    (runTurn envNoRows [] "hi").executed = [] ++ ["SELECT 1"] ∧
    envNoRows.engine "SELECT 1" = .ok { rows := 0, hasNumeric := false } ∧
    ((runTurn envNoRows [] "hi").charted = false ∧
     (runTurn envNoRows [] "hi").summarized = false ∧
     (runTurn envNoRows [] "hi").crashed = false ∧
     "No data returned for this query." ∈ (runTurn envNoRows [] "hi").warnings ∧
     (runTurn envNoRows [] "hi").errors = []) :=
  ⟨by decide, rfl,
    empty_result_skips envNoRows [] "hi" [] "SELECT 1" false (by decide) rfl⟩

/-- C9: every submitted question appends exactly one turn record carrying
the question (so the prior history is preserved unchanged, in order, and
nothing is deleted); that record carries a summary exactly when the turn
summarized, which happens only after a successful execution that produced
a nonzero-row frame without a crash; on every failure path the record
keeps the question and no summary. -/
theorem history_append_invariant (env : TurnEnv) (hist : List Turn) (q : String) :
    ∃ s : Option String,
      (runTurn env hist q).history = hist ++ [{ user := q, summary := s }] ∧
      (s.isSome = true ↔ (runTurn env hist q).summarized = true) ∧
      ((runTurn env hist q).summarized = true →
        ∃ df, (runTurn env hist q).result = some df ∧ 0 < df.rows ∧
          (runTurn env hist q).crashed = false) := by
  unfold runTurn
  cases env.genOutcome with
  | raises => exact ⟨none, rfl, by simp [generate_sql], by simp [generate_sql]⟩
  | json r =>
    cases hr : r.extractText with
    | none => exact ⟨none, by simp [generate_sql, hr], by simp [generate_sql, hr],
        by simp [generate_sql, hr]⟩
    | some t =>
      simp only [generate_sql, hr]
      split
      · exact ⟨none, rfl, by simp, by simp⟩
      · cases hE : env.engine (substDate env.maxDate
            (applyCategoryMap (clean_sql (some t)))) with
        | ok df =>
          rcases displayBlock_hist env hist q
            [substDate env.maxDate (applyCategoryMap (clean_sql (some t)))] none df [] []
            with ⟨s, h1, h2, h3⟩
          exact ⟨s, h1, h2, fun hs => ⟨df, (h3 hs).1, (h3 hs).2.1, (h3 hs).2.2⟩⟩
        | error e1 =>
          cases env.fixOutcome with
          | raises => exact ⟨none, rfl, by simp [fix_sql], by simp [fix_sql]⟩
          | json rf =>
            cases hrf : rf.extractText with
            | none =>
              simp only [fix_sql, hrf]
              rcases displayBlock_hist env hist q
                [substDate env.maxDate (applyCategoryMap (clean_sql (some t)))]
                (some (substDate env.maxDate (applyCategoryMap (clean_sql (some t)))))
                { rows := 0, hasNumeric := false } ["SQL failed: " ++ e1] []
                with ⟨s, h1, h2, h3⟩
              exact ⟨s, h1, h2, fun hs =>
                ⟨{ rows := 0, hasNumeric := false }, (h3 hs).1, (h3 hs).2.1, (h3 hs).2.2⟩⟩
            | some tf =>
              simp only [fix_sql, hrf]
              split
              · rcases displayBlock_hist env hist q
                  [substDate env.maxDate (applyCategoryMap (clean_sql (some t)))]
                  (some (substDate env.maxDate (applyCategoryMap (clean_sql (some t)))))
                  { rows := 0, hasNumeric := false } ["SQL failed: " ++ e1] []
                  with ⟨s, h1, h2, h3⟩
                exact ⟨s, h1, h2, fun hs =>
                  ⟨{ rows := 0, hasNumeric := false }, (h3 hs).1, (h3 hs).2.1, (h3 hs).2.2⟩⟩
              · cases hE2 : env.engine (substDate env.maxDate (clean_sql (some tf))) with
                | ok df2 =>
                  rcases displayBlock_hist env hist q
                    [substDate env.maxDate (applyCategoryMap (clean_sql (some t))),
                      substDate env.maxDate (clean_sql (some tf))]
                    (some (substDate env.maxDate (applyCategoryMap (clean_sql (some t)))))
                    df2 ["SQL failed: " ++ e1] []
                    with ⟨s, h1, h2, h3⟩
                  exact ⟨s, h1, h2, fun hs => ⟨df2, (h3 hs).1, (h3 hs).2.1, (h3 hs).2.2⟩⟩
                | error e2 =>
                  rcases displayBlock_hist env hist q
                    [substDate env.maxDate (applyCategoryMap (clean_sql (some t))),
                      substDate env.maxDate (clean_sql (some tf))]
                    (some (substDate env.maxDate (applyCategoryMap (clean_sql (some t)))))
                    { rows := 0, hasNumeric := false } ["SQL failed: " ++ e1]
                    ["Still invalid after correction: " ++ e2]
                    with ⟨s, h1, h2, h3⟩
                  exact ⟨s, h1, h2, fun hs =>
                    ⟨{ rows := 0, hasNumeric := false }, (h3 hs).1, (h3 hs).2.1, (h3 hs).2.2⟩⟩

/-- C9 witness: the invariant at a concrete successful turn. -/
theorem history_append_invariant_witness :
    ∃ s : Option String,
      (runTurn envOneRow [] "hi").history = [] ++ [{ user := "hi", summary := s }] ∧
      (s.isSome = true ↔ (runTurn envOneRow [] "hi").summarized = true) ∧
      ((runTurn envOneRow [] "hi").summarized = true →
        ∃ df, (runTurn envOneRow [] "hi").result = some df ∧ 0 < df.rows ∧
          (runTurn envOneRow [] "hi").crashed = false) :=
  history_append_invariant envOneRow [] "hi"
